import Mathlib

/-!
A shallow embedding of the getoptmm command-line parser (src/getoptmm.hpp).

Strings are Lean `String`s (the source instantiates `basic_option` /
`basic_parser` at `std::string`).  Handlers are modelled observationally:
instead of invoking a callback, the embedded `run` records an `Event` for
every handler invocation, in invocation order.  A thrown
`basic_parse_error` is modelled as a `PError` value returned alongside the
events emitted before the throw.

The default unrecognized-option handler of the source throws; a
user-supplied one may record the token and return.  The Boolean
`uthrow` parameter selects between those two behaviours: `true` models the
default (throwing) handler, `false` models a non-throwing handler whose
invocation is recorded as an `Event.unrec`.
-/

namespace Getoptmm

/-- Embeds `enum class arg_type { none, optional, required }`. -/
inductive ArgType
  | none
  | optional
  | required
deriving DecidableEq

/-- Embeds `enum class match_type { none, exact, partial }`.  `partial` is a
Lean keyword, so that constructor is named `part` here. -/
inductive MatchType
  | none
  | exact
  | part
deriving DecidableEq

/-- Embeds `enum class parse_flag { none, posixly_correct }`. -/
inductive ParseFlag
  | none
  | posixly_correct
deriving DecidableEq

/-- Embeds the data fields of `basic_option<std::string>`: the short- and
long-name alias lists, the argument arity, and (for help rendering) the
argument placeholder name and the description.  The `m_handler` callback is
not a field; handler invocations are modelled as `Event`s of `run`. -/
structure BasicOption where
  shortNames : List Char
  longNames : List String
  argType : ArgType
  argName : String
  description : String

/-- The loop body of `basic_option::match(char_type)`: return `exact` on the
first short name equal to `c`, else `none`. -/
def matchShortAux (c : Char) : List Char → MatchType
  | [] => MatchType.none
  | n :: rest => if n = c then MatchType.exact else matchShortAux c rest

/-- Embeds `basic_option::match(char_type c)`. -/
def BasicOption.matchShort (o : BasicOption) (c : Char) : MatchType :=
  matchShortAux c o.shortNames

/-- The loop of `basic_option::match(string_type const &s)`, with `ret` the
accumulator initialised to `none`: return `exact` as soon as a long name
equals `s`; remember `partial` whenever `s.size() < name.size()` and
`std::mismatch(s.begin(), s.end(), name.begin()).first == s.end()`
(that is, `s` is a strictly shorter prefix of `name`). -/
def matchLongAux (s : String) : List String → MatchType → MatchType
  | [], ret => ret
  | name :: rest, ret =>
    if name = s then MatchType.exact
    else if s.length < name.length ∧ s.data.isPrefixOf name.data then
      matchLongAux s rest MatchType.part
    else matchLongAux s rest ret

/-- Embeds `basic_option::match(string_type const &s)`. -/
def BasicOption.matchLong (o : BasicOption) (s : String) : MatchType :=
  matchLongAux s o.longNames MatchType.none

/-- The error taxonomy of `basic_parser::run`.  The source throws a single
`basic_parse_error` type; the constructors here correspond one-to-one to the
message strings built at the throw sites:
`unrecognized tok`      ~ "unrecognized option: " + tok (default handler),
`ambiguousLong name`    ~ "ambiguous option: --" + name,
`ambiguousShort c`      ~ "ambiguous option: -" + c,
`argNotAllowed name`    ~ "argument not allowed: --" + name,
`argRequiredLong name`  ~ "argument required: --" + name,
`argRequiredShort c`    ~ "argument required: -" + c. -/
inductive PError
  | unrecognized (tok : String)
  | ambiguousLong (name : String)
  | ambiguousShort (c : Char)
  | argNotAllowed (name : String)
  | argRequiredLong (name : String)
  | argRequiredShort (c : Char)
deriving DecidableEq

/-- One observable handler invocation performed by `run`:
`optCall i a` is `m_options[i]`'s handler invoked with no value (`a = none`)
or with a string value; `nonOpt t` is the non-option handler invoked with
token `t`; `unrec t` is a (non-throwing) unrecognized-option handler
invoked with `t`. -/
inductive Event
  | optCall (i : Nat) (arg : Option String)
  | nonOpt (tok : String)
  | unrec (tok : String)
deriving DecidableEq

/-- A char the ECMAScript regex atom `.` refuses to match (C++ `std::regex`
defaults to the ECMAScript grammar, where `.` matches any character except a
line terminator; for `char`-based regexes those are `'\n'` and `'\r'`). -/
def isLineTerm (c : Char) : Bool := c == '\n' || c == '\r'

/-- Embeds `std::regex_match(arg, match, regex("--([^=]*)(?:=(.*))?"))` and
the extraction of `match.str(1)` (the name) and `match[2]` (the value):
two literal hyphens, then a maximal run of non-`'='` characters (the name:
a negated class does match line terminators), then optionally `'='` and the
rest of the token (the value: each char must be matchable by `.`, hence must
not be a line terminator — otherwise the whole regex fails to match). -/
def parseLong (arg : String) : Option (String × Option String) :=
  match arg.data with
  | '-' :: '-' :: rest =>
    let name := rest.takeWhile (fun c => c != '=')
    match rest.dropWhile (fun c => c != '=') with
    | [] => some (String.mk name, Option.none)
    | _ :: value =>
      if value.all (fun c => !isLineTerm c) then
        some (String.mk name, some (String.mk value))
      else Option.none
  | _ => Option.none

/-- Embeds `std::regex_match(arg, match, regex("-(.+)"))` and the extraction
of the cluster characters `match[1]`: a literal hyphen then one or more
characters each matchable by `.` (no line terminators). -/
def parseShort (arg : String) : Option (List Char) :=
  match arg.data with
  | '-' :: c :: cs =>
    if (c :: cs).all (fun ch => !isLineTerm ch) then some (c :: cs) else Option.none
  | _ => Option.none

/-- `std::find_if` from iterator position `k` of a list, returning the
absolute position of the first element satisfying `p`. -/
def findIdxFromAux {α : Type _} (p : α → Bool) : List α → Nat → Option Nat
  | [], _ => Option.none
  | a :: as, k => if p a then some k else findIdxFromAux p as (k + 1)

/-- The `find_match` lambda of the long-option branch of `run`:
`find_if` over `m_options` from position `start` for `opt.match(name) == m`. -/
def findMatchL (opts : List BasicOption) (name : String) (m : MatchType)
    (start : Nat) : Option Nat :=
  findIdxFromAux (fun o => o.matchLong name = m) (opts.drop start) start

/-- The `find_match` lambda of the short-option branch of `run`:
`find_if` over `m_options` from position `start` for
`opt.match(name) == match_type::exact`. -/
def findMatchS (opts : List BasicOption) (c : Char) (start : Nat) : Option Nat :=
  findIdxFromAux (fun o => o.matchShort c = MatchType.exact) (opts.drop start) start

/-- Outcome of selecting the option for a long name or a short char. -/
inductive Resolution
  | unrec
  | ambiguous
  | selected (i : Nat)
deriving DecidableEq

/-- The option-selection block of the long-option branch of `run`
(the `find_match` calls and the two `ambiguous option` throws):
first exact match if any, else first partial match; a second partial match
(when no exact exists) or a second exact match raises ambiguity.  The final
exact check of the source also runs after a unique partial selection, where
it can never fire; it is kept for faithfulness. -/
def resolveLong (opts : List BasicOption) (name : String) : Resolution :=
  match findMatchL opts name MatchType.exact 0 with
  | Option.none =>
    match findMatchL opts name MatchType.part 0 with
    | Option.none => Resolution.unrec
    | some i =>
      if (findMatchL opts name MatchType.part (i + 1)).isSome then Resolution.ambiguous
      else if (findMatchL opts name MatchType.exact (i + 1)).isSome then Resolution.ambiguous
      else Resolution.selected i
  | some i =>
    if (findMatchL opts name MatchType.exact (i + 1)).isSome then Resolution.ambiguous
    else Resolution.selected i

/-- The option-selection block of the short-option branch of `run`. -/
def resolveShort (opts : List BasicOption) (c : Char) : Resolution :=
  match findMatchS opts c 0 with
  | Option.none => Resolution.unrec
  | some i =>
    if (findMatchS opts c (i + 1)).isSome then Resolution.ambiguous
    else Resolution.selected i

/-- `optit->get_arg_type()` for the option at position `i` (positions
produced by the resolvers are always in range; out-of-range defaults to
`ArgType.none`). -/
def argTypeAt (opts : List BasicOption) (i : Nat) : ArgType :=
  match opts.get? i with
  | some o => o.argType
  | Option.none => ArgType.none

/-- Outcome of processing one short-option cluster (the inner `for` loop of
`run` over the characters of a `-CHARS` token): either a throw, or normal
completion having consumed the following token as a value (`done true`)
or not (`done false`). -/
inductive ClusterOut
  | halt (e : PError)
  | done (consumedNext : Bool)
deriving DecidableEq

/-- The inner character loop of the short-option branch of `run`.
`chars` are the remaining cluster characters (iterator `cit` to `clast`),
`rest` the tokens after the current one.  For the current char:
no match invokes the unrecognized handler with `"-"` plus the remaining
cluster characters and `continue`s with the next char (or aborts, when the
handler throws); a second match throws ambiguity; otherwise dispatch on
arity exactly as the source: `none` executes and continues, `optional`
takes the remaining chars as value (or no value) and breaks, `required`
takes the remaining chars or else the next token as value (throwing
`argument required` when no token remains) and breaks. -/
def processCluster (opts : List BasicOption) (uthrow : Bool) :
    List Char → List String → List Event × ClusterOut
  | [], _ => ([], ClusterOut.done false)
  | c :: cs, rest =>
    match resolveShort opts c with
    | Resolution.unrec =>
      if uthrow then
        ([], ClusterOut.halt (PError.unrecognized (String.mk ('-' :: c :: cs))))
      else
        let r := processCluster opts uthrow cs rest
        (Event.unrec (String.mk ('-' :: c :: cs)) :: r.1, r.2)
    | Resolution.ambiguous => ([], ClusterOut.halt (PError.ambiguousShort c))
    | Resolution.selected i =>
      match argTypeAt opts i with
      | ArgType.none =>
        let r := processCluster opts uthrow cs rest
        (Event.optCall i Option.none :: r.1, r.2)
      | ArgType.optional =>
        match cs with
        | [] => ([Event.optCall i Option.none], ClusterOut.done false)
        | _ :: _ => ([Event.optCall i (some (String.mk cs))], ClusterOut.done false)
      | ArgType.required =>
        match cs with
        | [] =>
          match rest with
          | [] => ([], ClusterOut.halt (PError.argRequiredShort c))
          | t :: _ => ([Event.optCall i (some t)], ClusterOut.done true)
        | _ :: _ => ([Event.optCall i (some (String.mk cs))], ClusterOut.done false)

/-- Outcome of processing one token of `run`'s outer loop: a throw, the end
of scanning (after `--` or a posixly-correct stop, whose events already
cover the remaining tokens), or continuation (having consumed the following
token as a value or not). -/
inductive StepOut
  | halt (e : PError)
  | stop
  | cont (consumedNext : Bool)
deriving DecidableEq

/-- The body of the outer token loop of `basic_parser::run`, for the current
token `arg` with remaining tokens `rest`, in the source's branch order:
the literal `--` turns every remaining token into a non-option; a token
matching the long-option regex resolves the name and dispatches on arity;
a token matching the short-option regex runs the cluster loop; otherwise,
in posixly-correct mode this and all remaining tokens are non-options and
scanning stops, and in standard mode this single token is a non-option. -/
def stepTok (opts : List BasicOption) (flag : ParseFlag) (uthrow : Bool)
    (arg : String) (rest : List String) : List Event × StepOut :=
  if arg = "--" then (rest.map Event.nonOpt, StepOut.stop)
  else
    match parseLong arg with
    | some (name, val) =>
      match resolveLong opts name with
      | Resolution.unrec =>
        if uthrow then ([], StepOut.halt (PError.unrecognized arg))
        else ([Event.unrec arg], StepOut.cont false)
      | Resolution.ambiguous => ([], StepOut.halt (PError.ambiguousLong name))
      | Resolution.selected i =>
        match argTypeAt opts i, val with
        | ArgType.none, some _ => ([], StepOut.halt (PError.argNotAllowed name))
        | ArgType.none, Option.none =>
          ([Event.optCall i Option.none], StepOut.cont false)
        | ArgType.optional, some v => ([Event.optCall i (some v)], StepOut.cont false)
        | ArgType.optional, Option.none =>
          ([Event.optCall i Option.none], StepOut.cont false)
        | ArgType.required, some v => ([Event.optCall i (some v)], StepOut.cont false)
        | ArgType.required, Option.none =>
          match rest with
          | [] => ([], StepOut.halt (PError.argRequiredLong name))
          | t :: _ => ([Event.optCall i (some t)], StepOut.cont true)
    | Option.none =>
      match parseShort arg with
      | some chars =>
        let r := processCluster opts uthrow chars rest
        (r.1, match r.2 with
              | ClusterOut.halt e => StepOut.halt e
              | ClusterOut.done b => StepOut.cont b)
      | Option.none =>
        if flag = ParseFlag.posixly_correct then
          ((arg :: rest).map Event.nonOpt, StepOut.stop)
        else ([Event.nonOpt arg], StepOut.cont false)

/-- Embeds `basic_parser::run(Iterator first, Iterator last)`: fold
`stepTok` over the token sequence, collecting events until the end of the
tokens, a normal stop, or a throw. -/
def run (opts : List BasicOption) (flag : ParseFlag) (uthrow : Bool) :
    List String → List Event × Option PError
  | [] => ([], Option.none)
  | arg :: rest =>
    match stepTok opts flag uthrow arg rest with
    | (evs, StepOut.halt e) => (evs, some e)
    | (evs, StepOut.stop) => (evs, Option.none)
    | (evs, StepOut.cont false) =>
      let r := run opts flag uthrow rest
      (evs ++ r.1, r.2)
    | (evs, StepOut.cont true) =>
      match rest with
      | [] => (evs, Option.none)
      | _ :: rest2 =>
        let r := run opts flag uthrow rest2
        (evs ++ r.1, r.2)

/-- `n` space characters, as written by `std::setw(n)` on an empty string
under `std::left`. -/
def spaces (n : Nat) : String := String.mk (List.replicate n ' ')

/-- `ss << std::left << std::setw(w) << s`: pad `s` on the right with spaces
up to width `w`; a string at least `w` long is written unchanged. -/
def setwLeft (w : Nat) (s : String) : String := s ++ spaces (w - s.length)

/-- The `while (std::getline(desc, ln))` loop over the remaining characters,
with `acc` the (reversed) characters of the line being read: a line ends at
`'\n'` or at the end of input; reaching the end of input at the start of a
line fails without producing a line, so a trailing `'\n'` yields no extra
empty line. -/
def getlinesGo : List Char → List Char → List String
  | [], acc => [String.mk acc.reverse]
  | ['\n'], acc => [String.mk acc.reverse]
  | '\n' :: rest, acc => String.mk acc.reverse :: getlinesGo rest []
  | c :: rest, acc => getlinesGo rest (c :: acc)

/-- The lines successive `std::getline` calls extract from `s` (none for the
empty string, since the very first `getline` then fails). -/
def getlines (s : String) : List String :=
  match s.data with
  | [] => []
  | _ :: _ => getlinesGo s.data []

/-- `ret[0]` of `basic_option::get_help`: the short aliases joined by `','`,
each rendered as `-c` followed by `[ARG]` for optional arity or a space and
`ARG` for required arity. -/
def shortField (o : BasicOption) : String :=
  String.intercalate "," (o.shortNames.map (fun c =>
    String.mk ['-', c] ++
      match o.argType with
      | ArgType.optional => "[" ++ o.argName ++ "]"
      | ArgType.required => " " ++ o.argName
      | ArgType.none => ""))

/-- `ret[1]` of `basic_option::get_help`: the long aliases joined by `','`,
each rendered as `--name` followed by `[=ARG]` for optional arity or `=ARG`
for required arity. -/
def longField (o : BasicOption) : String :=
  String.intercalate "," (o.longNames.map (fun s =>
    "--" ++ s ++
      match o.argType with
      | ArgType.optional => "[=" ++ o.argName ++ "]"
      | ArgType.required => "=" ++ o.argName
      | ArgType.none => ""))

/-- Concatenation of a list of strings (a stream written piece by piece). -/
def concatAll : List String → String
  | [] => ""
  | s :: ss => s ++ concatAll ss

/-- A first-element flag loop writing `sep` before every element but the
first, as `basic_parser::get_help` does with `'\n'` between option blocks. -/
def joinSep (sep : String) : List String → String
  | [] => ""
  | s :: ss => s ++ concatAll (ss.map (fun t => sep ++ t))

/-- `col0` of `basic_parser::get_help`: the running
`std::max<int>(col0, help[0].length())` fold over the options starting from
`0`, then `++col0`. -/
def helpCol0 (opts : List BasicOption) : Nat :=
  opts.foldl (fun m o => max m (shortField o).length) 0 + 1

/-- `col1` of `basic_parser::get_help`, over the long fields. -/
def helpCol1 (opts : List BasicOption) : Nat :=
  opts.foldl (fun m o => max m (longField o).length) 0 + 1

/-- The text `basic_parser::get_help` writes for one option: the two padded
fields, then the description's first line, then each further description
line on its own line indented by `col0 + col1` spaces.  An empty
description writes no line at all after the fields. -/
def renderBlock (col0 col1 : Nat) (o : BasicOption) : String :=
  setwLeft col0 (shortField o) ++ setwLeft col1 (longField o) ++
    match getlines o.description with
    | [] => ""
    | ln :: lns => ln ++ concatAll (lns.map (fun l => "\n" ++ spaces (col0 + col1) ++ l))

/-- Embeds `basic_parser::get_help(header)`: the header and a newline, then
the option blocks separated by single newlines. -/
def get_help (opts : List BasicOption) (header : String) : String :=
  header ++ "\n" ++
    joinSep "\n" (opts.map (renderBlock (helpCol0 opts) (helpCol1 opts)))

/-! Specification-side definitions, used only to state properties. -/

/-- The largest width of the field `f` over the options (`0` when empty). -/
def maxLen (f : BasicOption → String) (opts : List BasicOption) : Nat :=
  (opts.map (fun o => (f o).length)).foldr max 0

/-- The display lines of one option's help block as §4.3 of the spec
describes them: the short field padded to `col0`, the long field padded to
`col1`, then the first description line; each further description line on a
line of its own indented by `col0 + col1` spaces. -/
def blockLines (col0 col1 : Nat) (o : BasicOption) : List String :=
  match getlines o.description with
  | [] => [setwLeft col0 (shortField o) ++ setwLeft col1 (longField o)]
  | ln :: lns =>
    (setwLeft col0 (shortField o) ++ setwLeft col1 (longField o) ++ ln) ::
      lns.map (fun l => spaces (col0 + col1) ++ l)

/-- A cluster character the inner short-option loop passes over without
breaking, halting or consuming a value: either it uniquely selects a
no-argument option, or it matches nothing and the unrecognized-option
handler returns. -/
def shortTransparent (opts : List BasicOption) (uthrow : Bool) (c : Char) : Bool :=
  match resolveShort opts c with
  | Resolution.unrec => !uthrow
  | Resolution.ambiguous => false
  | Resolution.selected i => argTypeAt opts i = ArgType.none

/-! Concrete option declarations used as inputs of witnesses and
counterexamples. -/

def demoA : BasicOption := ⟨['a'], [], ArgType.none, "", ""⟩

def demoB : BasicOption := ⟨['b'], [], ArgType.required, "V", ""⟩

def demoFoo : BasicOption := ⟨[], ["foo"], ArgType.none, "", ""⟩

def demoFob : BasicOption := ⟨[], ["fob"], ArgType.none, "", ""⟩

def demoCount : BasicOption := ⟨[], ["count"], ArgType.required, "N", ""⟩

def demoV : BasicOption := ⟨['v'], [], ArgType.none, "", ""⟩

def demoHelp : BasicOption := ⟨['h'], ["help"], ArgType.none, "", "show help"⟩

def demoOutput : BasicOption := ⟨['o'], ["output"], ArgType.required, "FILE", "output file"⟩

def demoLongA : BasicOption := ⟨[], ["a"], ArgType.required, "V", ""⟩

def demoFlag : BasicOption := ⟨[], ["flag"], ArgType.none, "", ""⟩

/-! Lemmas about the `find_if` embedding. -/

theorem findIdxFromAux_eq_none_iff {α : Type _} (p : α → Bool) (l : List α) (k : Nat) :
    findIdxFromAux p l k = Option.none ↔ l.countP p = 0 := by
  induction l generalizing k with
  | nil => simp [findIdxFromAux]
  | cons a as ih =>
    by_cases hp : p a
    · simp [findIdxFromAux, hp, List.countP_cons]
    · simp [findIdxFromAux, hp, List.countP_cons, ih]

theorem findIdxFromAux_eq_some {α : Type _} (p : α → Bool) (l : List α) (k j : Nat)
    (h : findIdxFromAux p l k = some j) :
    ∃ j', j = k + j' ∧ ∃ a, l.get? j' = some a ∧ p a = true ∧
      l.countP p = 1 + (l.drop (j' + 1)).countP p := by
  induction l generalizing k with
  | nil => simp [findIdxFromAux] at h
  | cons a as ih =>
    by_cases hp : p a
    · simp [findIdxFromAux, hp] at h
      refine ⟨0, by omega, a, rfl, hp, ?_⟩
      simp [List.countP_cons, hp]
      omega
    · simp [findIdxFromAux, hp] at h
      obtain ⟨j', rfl, a', hget, hpa, hc⟩ := ih (k + 1) h
      refine ⟨j' + 1, by omega, a', by simpa using hget, hpa, ?_⟩
      simpa [List.countP_cons, hp] using hc

theorem findIdxFromAux_isSome_iff {α : Type _} (p : α → Bool) (l : List α) (k : Nat) :
    (findIdxFromAux p l k).isSome ↔ 1 ≤ l.countP p := by
  rcases h : findIdxFromAux p l k with _ | j
  · rw [findIdxFromAux_eq_none_iff] at h
    simp [h]
  · obtain ⟨j', _, a, _, hpa, hc⟩ := findIdxFromAux_eq_some p l k j h
    simp only [h, Option.isSome_some, true_iff]
    omega

theorem countP_drop_le {α : Type _} (p : α → Bool) (l : List α) (n : Nat) :
    (l.drop n).countP p ≤ l.countP p := by
  conv_rhs => rw [← List.take_append_drop n l]
  rw [List.countP_append]
  omega

theorem findMatchL_zero_eq_none_iff (opts : List BasicOption) (name : String) (m : MatchType) :
    findMatchL opts name m 0 = Option.none ↔
      opts.countP (fun o => o.matchLong name = m) = 0 := by
  rw [findMatchL, List.drop_zero]
  exact findIdxFromAux_eq_none_iff _ opts 0

theorem findMatchL_zero_eq_some (opts : List BasicOption) (name : String) (m : MatchType)
    (i : Nat) (h : findMatchL opts name m 0 = some i) :
    ∃ o, opts.get? i = some o ∧ o.matchLong name = m ∧
      opts.countP (fun o => o.matchLong name = m) =
        1 + (opts.drop (i + 1)).countP (fun o => o.matchLong name = m) := by
  rw [findMatchL, List.drop_zero] at h
  obtain ⟨j', hj, a, hget, hpa, hc⟩ := findIdxFromAux_eq_some _ opts 0 i h
  have hji : j' = i := by omega
  subst hji
  exact ⟨a, hget, by simpa using hpa, hc⟩

theorem findMatchL_succ_isSome_iff (opts : List BasicOption) (name : String) (m : MatchType)
    (i : Nat) :
    (findMatchL opts name m (i + 1)).isSome ↔
      1 ≤ (opts.drop (i + 1)).countP (fun o => o.matchLong name = m) := by
  rw [findMatchL]
  exact findIdxFromAux_isSome_iff _ _ _

/-- C1: during long-option resolution in `run`, an exact match always beats
any number of partial matches; `AmbiguousOption` is raised exactly when two
or more options exact-match the extracted name, or no option exact-matches
and two or more options partial-match it; and when it is raised, that
token's processing invokes no handler at all. -/
theorem c1_long_resolution (opts : List BasicOption) (name : String) :
    (resolveLong opts name = Resolution.ambiguous ↔
      2 ≤ opts.countP (fun o => o.matchLong name = MatchType.exact) ∨
        (opts.countP (fun o => o.matchLong name = MatchType.exact) = 0 ∧
          2 ≤ opts.countP (fun o => o.matchLong name = MatchType.part))) ∧
    (∀ i, 1 ≤ opts.countP (fun o => o.matchLong name = MatchType.exact) →
      resolveLong opts name = Resolution.selected i →
      ∃ o, opts.get? i = some o ∧ o.matchLong name = MatchType.exact) ∧
    (∀ flag uthrow tok rest val, tok ≠ "--" → parseLong tok = some (name, val) →
      resolveLong opts name = Resolution.ambiguous →
      stepTok opts flag uthrow tok rest = ([], StepOut.halt (PError.ambiguousLong name))) := by
  refine ⟨?_, ?_, ?_⟩
  · rcases hE : findMatchL opts name MatchType.exact 0 with _ | i
    · have hce := (findMatchL_zero_eq_none_iff opts name MatchType.exact).1 hE
      rcases hP : findMatchL opts name MatchType.part 0 with _ | i
      · have hcp := (findMatchL_zero_eq_none_iff opts name MatchType.part).1 hP
        simp only [resolveLong, hE, hP]
        constructor
        · intro h
          cases h
        · intro h
          omega
      · obtain ⟨o, hgo, hmo, hcnt⟩ := findMatchL_zero_eq_some opts name MatchType.part i hP
        by_cases hs : (findMatchL opts name MatchType.part (i + 1)).isSome
        · have h2 := (findMatchL_succ_isSome_iff opts name MatchType.part i).1 hs
          simp only [resolveLong, hE, hP, hs, if_true]
          constructor
          · intro _
            omega
          · intro _
            trivial
        · have h2 : (opts.drop (i + 1)).countP (fun o => o.matchLong name = MatchType.part) = 0 := by
            by_contra hc
            exact hs ((findMatchL_succ_isSome_iff opts name MatchType.part i).2 (by omega))
          have hse : ¬ (findMatchL opts name MatchType.exact (i + 1)).isSome := by
            rw [findMatchL_succ_isSome_iff]
            have := countP_drop_le (fun o => decide (o.matchLong name = MatchType.exact)) opts (i + 1)
            omega
          simp only [resolveLong, hE, hP, hs, hse, if_false]
          constructor
          · intro h
            cases h
          · intro h
            omega
    · obtain ⟨o, hgo, hmo, hcnt⟩ := findMatchL_zero_eq_some opts name MatchType.exact i hE
      by_cases hs : (findMatchL opts name MatchType.exact (i + 1)).isSome
      · have h2 := (findMatchL_succ_isSome_iff opts name MatchType.exact i).1 hs
        simp only [resolveLong, hE, hs, if_true]
        constructor
        · intro _
          left
          omega
        · intro _
          trivial
      · have h2 : (opts.drop (i + 1)).countP (fun o => o.matchLong name = MatchType.exact) = 0 := by
          by_contra hc
          exact hs ((findMatchL_succ_isSome_iff opts name MatchType.exact i).2 (by omega))
        simp only [resolveLong, hE, hs, if_false]
        constructor
        · intro h
          cases h
        · intro h
          omega
  · intro i h1 hsel
    rcases hE : findMatchL opts name MatchType.exact 0 with _ | i0
    · have hce := (findMatchL_zero_eq_none_iff opts name MatchType.exact).1 hE
      omega
    · obtain ⟨o, hgo, hmo, hcnt⟩ := findMatchL_zero_eq_some opts name MatchType.exact i0 hE
      by_cases hs : (findMatchL opts name MatchType.exact (i0 + 1)).isSome
      · simp only [resolveLong, hE, hs, if_true] at hsel
        cases hsel
      · simp only [resolveLong, hE, hs, if_false] at hsel
        cases hsel
        exact ⟨o, hgo, hmo⟩
  · intro flag uthrow tok rest val hne hparse hamb
    simp only [stepTok, hne, if_false, hparse, hamb]

/-- C1 witness: the long names "foo" and "fob" are both partial-matched by
the typed prefix "fo", no exact match exists, and the token `--fo` halts
the scan with the ambiguity error without invoking any handler. -/
theorem c1_long_resolution_witness :
    stepTok [demoFoo, demoFob] ParseFlag.none true "--fo" [] =
      ([], StepOut.halt (PError.ambiguousLong "fo")) :=
  (c1_long_resolution [demoFoo, demoFob] "fo").2.2 ParseFlag.none true "--fo" []
    Option.none (by decide) (by decide) (by decide)

/-! Characterisation of `basic_option::match(string)` (claim C3). -/

theorem matchLongAux_exact_iff (s : String) (l : List String) (ret : MatchType)
    (hret : ret ≠ MatchType.exact) :
    matchLongAux s l ret = MatchType.exact ↔ s ∈ l := by
  induction l generalizing ret with
  | nil =>
    simp only [matchLongAux, List.not_mem_nil, iff_false]
    exact fun h => hret h
  | cons name rest ih =>
    by_cases h1 : name = s
    · subst h1
      simp [matchLongAux]
    · have h1' : ¬ s = name := fun h => h1 h.symm
      by_cases h2 : s.length < name.length ∧ s.data <+: name.data
      · simp [matchLongAux, h1, h2, ih MatchType.part (by simp), List.mem_cons, h1']
      · simp [matchLongAux, h1, h2, ih ret hret, List.mem_cons, h1']

theorem matchLongAux_part_iff (s : String) (l : List String) (ret : MatchType)
    (hret : ret = MatchType.none ∨ ret = MatchType.part) :
    matchLongAux s l ret = MatchType.part ↔
      s ∉ l ∧ (ret = MatchType.part ∨
        ∃ n ∈ l, s.length < n.length ∧ s.data <+: n.data) := by
  induction l generalizing ret with
  | nil => simp [matchLongAux]
  | cons name rest ih =>
    by_cases h1 : name = s
    · subst h1
      simp [matchLongAux]
    · have h1' : ¬ s = name := fun h => h1 h.symm
      have hmemc : s ∉ name :: rest ↔ s ∉ rest := by
        simp [List.mem_cons, h1']
      by_cases h2 : s.length < name.length ∧ s.data <+: name.data
      · rw [show matchLongAux s (name :: rest) ret = matchLongAux s rest MatchType.part from by
          simp [matchLongAux, h1, h2], ih MatchType.part (Or.inr rfl)]
        constructor
        · rintro ⟨hnm, -⟩
          exact ⟨hmemc.2 hnm, Or.inr ⟨name, List.mem_cons_self name rest, h2⟩⟩
        · rintro ⟨hnm, -⟩
          exact ⟨hmemc.1 hnm, Or.inl rfl⟩
      · rw [show matchLongAux s (name :: rest) ret = matchLongAux s rest ret from by
          simp [matchLongAux, h1, h2], ih ret hret]
        constructor
        · rintro ⟨hnm, hor⟩
          refine ⟨hmemc.2 hnm, ?_⟩
          rcases hor with h | ⟨n, hn, hc⟩
          · exact Or.inl h
          · exact Or.inr ⟨n, List.mem_cons_of_mem name hn, hc⟩
        · rintro ⟨hnm, hor⟩
          refine ⟨hmemc.1 hnm, ?_⟩
          rcases hor with h | ⟨n, hn, hc⟩
          · exact Or.inl h
          · rcases List.mem_cons.1 hn with h | h
            · subst h
              exact absurd hc h2
            · exact Or.inr ⟨n, h, hc⟩

/-- C3 counterexample: against the declared long name "foo", the empty
string yields a `partial` match — the claim states that the empty string
never yields a partial match (it demands a *non-empty* proper prefix). -/
theorem c3_counterexample : BasicOption.matchLong demoFoo "" = MatchType.part := by decide

/-- C3 amended: `match_long(name)` returns `exact` iff `name` equals one of
the declared long names; otherwise `partial` iff `name` is a strictly
shorter (possibly empty) prefix of at least one declared long name;
otherwise `none`.  In particular the empty string yields a partial match
against any option declaring a nonempty long name (unless the empty string
is itself declared). -/
theorem c3_match_long (o : BasicOption) (s : String) :
    (o.matchLong s = MatchType.exact ↔ s ∈ o.longNames) ∧
    (o.matchLong s = MatchType.part ↔
      s ∉ o.longNames ∧
        ∃ n ∈ o.longNames, s.length < n.length ∧ s.data <+: n.data) ∧
    (o.matchLong s = MatchType.none ↔
      s ∉ o.longNames ∧
        ∀ n ∈ o.longNames, ¬(s.length < n.length ∧ s.data <+: n.data)) := by
  have he : o.matchLong s = MatchType.exact ↔ s ∈ o.longNames :=
    matchLongAux_exact_iff s o.longNames MatchType.none (by simp)
  have hp0 : o.matchLong s = MatchType.part ↔
      s ∉ o.longNames ∧ (MatchType.none = MatchType.part ∨
        ∃ n ∈ o.longNames, s.length < n.length ∧ s.data <+: n.data) :=
    matchLongAux_part_iff s o.longNames MatchType.none (Or.inl rfl)
  have hp : o.matchLong s = MatchType.part ↔
      s ∉ o.longNames ∧ ∃ n ∈ o.longNames, s.length < n.length ∧ s.data <+: n.data := by
    rw [hp0]
    simp
  refine ⟨he, hp, ?_⟩
  constructor
  · intro h
    have h1 : ¬ s ∈ o.longNames := fun hm => by
      rw [← he] at hm
      rw [hm] at h
      cases h
    have h2 : ¬ ∃ n ∈ o.longNames, s.length < n.length ∧ s.data <+: n.data := by
      intro hex
      have := hp.2 ⟨h1, hex⟩
      rw [this] at h
      cases h
    push_neg at h2
    exact ⟨h1, fun n hn hc => absurd hc.2 (h2 n hn hc.1)⟩
  · rintro ⟨h1, h2⟩
    rcases hm : BasicOption.matchLong o s with _ | _ | _
    · rfl
    · exact absurd (he.1 hm) h1
    · obtain ⟨_, n, hn, hcond⟩ := hp.1 hm
      exact absurd hcond (h2 n hn)

/-- C2 counterexample: with only `-b` (required arity) declared and a
non-throwing unrecognized-option handler, the cluster token `-xb` first
reports `-xb` as unrecognized and then still dispatches `b`'s handler (with
the following token as its value) — the claim says processing of the
cluster stops at the unmatched character and no further character of the
token is dispatched as an option. -/
theorem c2_counterexample :
    run [demoB] ParseFlag.none false ["-xb", "v"] =
      ([Event.unrec "-xb", Event.optCall 0 (some "v")], Option.none) := by decide

/-- C2 amended: when the current cluster character matches no declared
option, the unrecognized-option handler is invoked with `-` followed by the
remaining unconsumed characters of the cluster; with the default (throwing)
handler the whole run aborts, while with a non-throwing handler processing
*continues with the next character of the same cluster*. -/
theorem c2_unrec_continues (opts : List BasicOption) (uthrow : Bool) (c : Char)
    (cs : List Char) (rest : List String)
    (h : resolveShort opts c = Resolution.unrec) :
    processCluster opts uthrow (c :: cs) rest =
      if uthrow then
        ([], ClusterOut.halt (PError.unrecognized (String.mk ('-' :: c :: cs))))
      else
        (Event.unrec (String.mk ('-' :: c :: cs)) :: (processCluster opts uthrow cs rest).1,
          (processCluster opts uthrow cs rest).2) := by
  simp only [processCluster, h]

/-- C2 witness: the amended rule at the concrete cluster `-xb` with `-b`
declared and a non-throwing handler. -/
theorem c2_unrec_continues_witness :
    processCluster [demoB] false ['x', 'b'] ["v"] =
      ([Event.unrec "-xb", Event.optCall 0 (some "v")], ClusterOut.done true) := by
  rw [c2_unrec_continues [demoB] false 'x' ['b'] ["v"] (by decide)]
  decide

/-- C4: a long-option token carrying an attached `=` value whose name
resolves to a unique option of optional or required arity invokes exactly
that option's handler, exactly once, with exactly the attached value
(possibly the empty string), and the scan continues with the remaining
tokens. -/
theorem c4_attached_value (opts : List BasicOption) (flag : ParseFlag) (uthrow : Bool)
    (tok : String) (rest : List String) (name v : String) (i : Nat)
    (h2 : parseLong tok = some (name, some v))
    (h3 : resolveLong opts name = Resolution.selected i)
    (h4 : argTypeAt opts i = ArgType.optional ∨ argTypeAt opts i = ArgType.required) :
    run opts flag uthrow (tok :: rest) =
      (Event.optCall i (some v) :: (run opts flag uthrow rest).1,
        (run opts flag uthrow rest).2) := by
  have hne : tok ≠ "--" := by
    intro h
    rw [h, show parseLong "--" = some ("", Option.none) from by decide] at h2
    simp at h2
  have hstep : stepTok opts flag uthrow tok rest =
      ([Event.optCall i (some v)], StepOut.cont false) := by
    rcases h4 with h4 | h4 <;> simp [stepTok, hne, h2, h3, h4]
  simp [run, hstep]

/-- C4 witness: `--count=` delivers the empty string to the required-arity
option declared as `--count`. -/
theorem c4_attached_value_witness :
    run [demoCount] ParseFlag.none true ["--count="] =
      ([Event.optCall 0 (some "")], Option.none) := by
  rw [c4_attached_value [demoCount] ParseFlag.none true "--count=" [] "count" "" 0
    (by decide) (by decide) (Or.inr (by decide))]
  decide

/-- C6: the literal token `--` makes every remaining token a non-option
operand, delivered to the non-option handler in the original order with no
option handler invoked, in every mode. -/
theorem c6_ddash_terminator (opts : List BasicOption) (flag : ParseFlag) (uthrow : Bool)
    (rest : List String) :
    run opts flag uthrow ("--" :: rest) = (rest.map Event.nonOpt, Option.none) := by
  have h : stepTok opts flag uthrow "--" rest = (rest.map Event.nonOpt, StepOut.stop) := by
    simp [stepTok]
  simp [run, h]

/-- C7: with `-a` of arity none and `-b` of required arity declared, the
token `-abVALUE` invokes `a`'s zero-argument handler and then `b`'s handler
with "VALUE"; the token `-ab` followed by the token "VALUE2" invokes `a`'s
zero-argument handler and then `b`'s handler with "VALUE2" taken from the
next token. -/
theorem c7_cluster_dispatch :
    run [demoA, demoB] ParseFlag.none true ["-abVALUE"] =
        ([Event.optCall 0 Option.none, Event.optCall 1 (some "VALUE")], Option.none) ∧
      run [demoA, demoB] ParseFlag.none true ["-ab", "VALUE2"] =
        ([Event.optCall 0 Option.none, Event.optCall 1 (some "VALUE2")], Option.none) :=
  ⟨by decide, by decide⟩

/-- C8: in posixly-correct mode, the first token that is not `--` and
matches neither option regex turns itself and every remaining token into
non-option operands, in order, and scanning stops. -/
theorem c8_posix_stop (opts : List BasicOption) (uthrow : Bool) (tok : String)
    (rest : List String) (h1 : tok ≠ "--") (h2 : parseLong tok = Option.none)
    (h3 : parseShort tok = Option.none) :
    run opts ParseFlag.posixly_correct uthrow (tok :: rest) =
      ((tok :: rest).map Event.nonOpt, Option.none) := by
  have h : stepTok opts ParseFlag.posixly_correct uthrow tok rest =
      ((tok :: rest).map Event.nonOpt, StepOut.stop) := by
    simp [stepTok, h1, h2, h3]
  simp [run, h]

/-- C8 witness: the spec's end-to-end posixly-correct example `[file1, -v,
file2]` with `-v` declared: all three tokens go to the non-option handler
and `v`'s handler never runs. -/
theorem c8_posix_stop_witness :
    run [demoV] ParseFlag.posixly_correct true ["file1", "-v", "file2"] =
      ([Event.nonOpt "file1", Event.nonOpt "-v", Event.nonOpt "file2"], Option.none) := by
  rw [c8_posix_stop [demoV] true "file1" ["-v", "file2"] (by decide) (by decide) (by decide)]
  decide

/-! Lemmas about the errors the short-option cluster loop can raise
(claim C5). -/

theorem processCluster_halt_cases (opts : List BasicOption) (uthrow : Bool)
    (chars : List Char) (rest : List String) (e : PError)
    (h : (processCluster opts uthrow chars rest).2 = ClusterOut.halt e) :
    (∃ s, e = PError.unrecognized s) ∨ (∃ c, e = PError.ambiguousShort c) ∨
      (∃ c, e = PError.argRequiredShort c) := by
  induction chars with
  | nil => simp [processCluster] at h
  | cons c cs ih =>
    rcases hr : resolveShort opts c with _ | _ | i
    · cases uthrow with
      | true =>
        simp [processCluster, hr] at h
        exact Or.inl ⟨_, h.symm⟩
      | false =>
        simp [processCluster, hr] at h
        exact ih h
    · simp [processCluster, hr] at h
      exact Or.inr (Or.inl ⟨_, h.symm⟩)
    · rcases ha : argTypeAt opts i with _ | _ | _
      · simp [processCluster, hr, ha] at h
        exact ih h
      · rcases cs with _ | ⟨c2, cs2⟩ <;> simp [processCluster, hr, ha] at h
      · rcases cs with _ | ⟨c2, cs2⟩
        · rcases rest with _ | ⟨t, ts⟩
          · simp [processCluster, hr, ha] at h
            exact Or.inr (Or.inr ⟨_, h.symm⟩)
          · simp [processCluster, hr, ha] at h
        · simp [processCluster, hr, ha] at h

theorem exists_decomp_cons (opts : List BasicOption) (uthrow : Bool) (c : Char)
    (cs : List Char) :
    (∃ pre ch i, c :: cs = pre ++ [ch] ∧
        (∀ x ∈ pre, shortTransparent opts uthrow x = true) ∧
        resolveShort opts ch = Resolution.selected i ∧
        argTypeAt opts i = ArgType.required) ↔
      ((cs = [] ∧ ∃ i, resolveShort opts c = Resolution.selected i ∧
          argTypeAt opts i = ArgType.required) ∨
        (shortTransparent opts uthrow c = true ∧
          ∃ pre ch i, cs = pre ++ [ch] ∧
            (∀ x ∈ pre, shortTransparent opts uthrow x = true) ∧
            resolveShort opts ch = Resolution.selected i ∧
            argTypeAt opts i = ArgType.required)) := by
  constructor
  · rintro ⟨pre, ch, i, hch, htr, hres, harg⟩
    rcases pre with _ | ⟨p, pre'⟩
    · simp only [List.nil_append, List.cons.injEq] at hch
      rcases hch with ⟨rfl, rfl⟩
      exact Or.inl ⟨rfl, i, hres, harg⟩
    · simp only [List.cons_append, List.cons.injEq] at hch
      rcases hch with ⟨rfl, hcs⟩
      refine Or.inr ⟨htr c (List.mem_cons_self c pre'), pre', ch, i, hcs, ?_, hres, harg⟩
      exact fun x hx => htr x (List.mem_cons_of_mem c hx)
  · rintro (⟨rfl, i, hres, harg⟩ | ⟨htc, pre, ch, i, hcs, htr, hres, harg⟩)
    · exact ⟨[], c, i, rfl, by simp, hres, harg⟩
    · refine ⟨c :: pre, ch, i, by simp [hcs], ?_, hres, harg⟩
      intro x hx
      rcases List.mem_cons.1 hx with rfl | hx
      · exact htc
      · exact htr x hx

theorem processCluster_argRequired_iff (opts : List BasicOption) (uthrow : Bool)
    (chars : List Char) (rest : List String) :
    (∃ c, (processCluster opts uthrow chars rest).2 =
        ClusterOut.halt (PError.argRequiredShort c)) ↔
      (rest = [] ∧ ∃ pre c i, chars = pre ++ [c] ∧
        (∀ x ∈ pre, shortTransparent opts uthrow x = true) ∧
        resolveShort opts c = Resolution.selected i ∧
        argTypeAt opts i = ArgType.required) := by
  induction chars with
  | nil =>
    constructor
    · rintro ⟨ch, hc⟩
      simp [processCluster] at hc
    · rintro ⟨-, pre, ch, i, hch, -⟩
      exact absurd hch (by simp)
  | cons c cs ih =>
    rw [exists_decomp_cons opts uthrow c cs]
    rcases hr : resolveShort opts c with _ | _ | i
    · by_cases hu : uthrow
      · constructor
        · rintro ⟨ch, hc⟩
          simp [processCluster, hr, hu] at hc
        · rintro ⟨-, (⟨-, i, hres, -⟩ | ⟨htc, -⟩)⟩
          · exact Resolution.noConfusion hres
          · simp [shortTransparent, hr, hu] at htc
      · have hstep : (processCluster opts uthrow (c :: cs) rest).2 =
            (processCluster opts uthrow cs rest).2 := by
          simp [processCluster, hr, hu]
        simp only [hstep]
        rw [ih]
        constructor
        · rintro ⟨hrest, hX⟩
          exact ⟨hrest, Or.inr ⟨by simp [shortTransparent, hr, hu], hX⟩⟩
        · rintro ⟨hrest, (⟨-, i, hres, -⟩ | ⟨-, hX⟩)⟩
          · exact Resolution.noConfusion hres
          · exact ⟨hrest, hX⟩
    · constructor
      · rintro ⟨ch, hc⟩
        simp [processCluster, hr] at hc
      · rintro ⟨-, (⟨-, i, hres, -⟩ | ⟨htc, -⟩)⟩
        · exact Resolution.noConfusion hres
        · simp [shortTransparent, hr] at htc
    · rcases ha : argTypeAt opts i with _ | _ | _
      · have hstep : (processCluster opts uthrow (c :: cs) rest).2 =
            (processCluster opts uthrow cs rest).2 := by
          simp [processCluster, hr, ha]
        simp only [hstep]
        rw [ih]
        constructor
        · rintro ⟨hrest, hX⟩
          exact ⟨hrest, Or.inr ⟨by simp [shortTransparent, hr, ha], hX⟩⟩
        · rintro ⟨hrest, (⟨-, i', hres, harg⟩ | ⟨-, hX⟩)⟩
          · injection hres with hii
            subst hii
            rw [ha] at harg
            exact ArgType.noConfusion harg
          · exact ⟨hrest, hX⟩
      · constructor
        · rintro ⟨ch, hc⟩
          rcases cs with _ | ⟨c2, cs2⟩ <;> simp [processCluster, hr, ha] at hc
        · rintro ⟨-, (⟨-, i', hres, harg⟩ | ⟨htc, -⟩)⟩
          · injection hres with hii
            subst hii
            rw [ha] at harg
            exact ArgType.noConfusion harg
          · simp [shortTransparent, hr, ha] at htc
      · rcases cs with _ | ⟨c2, cs2⟩
        · rcases rest with _ | ⟨t, ts⟩
          · constructor
            · rintro -
              exact ⟨rfl, Or.inl ⟨rfl, i, rfl, ha⟩⟩
            · rintro -
              exact ⟨c, by simp [processCluster, hr, ha]⟩
          · constructor
            · rintro ⟨ch, hc⟩
              simp [processCluster, hr, ha] at hc
            · rintro ⟨hrest, -⟩
              exact List.noConfusion hrest
        · constructor
          · rintro ⟨ch, hc⟩
            simp [processCluster, hr, ha] at hc
          · rintro ⟨-, (⟨hnil, -⟩ | ⟨htc, -⟩)⟩
            · exact List.noConfusion hnil
            · simp [shortTransparent, hr, ha] at htc

theorem stepTok_argNotAllowed_iff (opts : List BasicOption) (flag : ParseFlag)
    (uthrow : Bool) (tok : String) (rest : List String) (hne : tok ≠ "--") :
    (∃ nm, (stepTok opts flag uthrow tok rest).2 =
        StepOut.halt (PError.argNotAllowed nm)) ↔
      (∃ nm v i, parseLong tok = some (nm, some v) ∧
        resolveLong opts nm = Resolution.selected i ∧
        argTypeAt opts i = ArgType.none) := by
  rcases hpl : parseLong tok with _ | ⟨name, val⟩
  · constructor
    · rintro ⟨nm, h⟩
      rcases hps : parseShort tok with _ | chars
      · by_cases hf : flag = ParseFlag.posixly_correct <;>
          simp [stepTok, hne, hpl, hps, hf] at h
      · rcases hc2 : (processCluster opts uthrow chars rest).2 with e | b
        · simp [stepTok, hne, hpl, hps, hc2] at h
          rcases processCluster_halt_cases opts uthrow chars rest e hc2 with
            ⟨s, rfl⟩ | ⟨c, rfl⟩ | ⟨c, rfl⟩ <;> exact PError.noConfusion h
        · simp [stepTok, hne, hpl, hps, hc2] at h
    · rintro ⟨nm, v, i, hc, -⟩
      exact absurd hc (by simp)
  · constructor
    · rintro ⟨nm, h⟩
      rcases hres : resolveLong opts name with _ | _ | i
      · by_cases hu : uthrow <;> simp [stepTok, hne, hpl, hres, hu] at h
      · simp [stepTok, hne, hpl, hres] at h
      · rcases ha : argTypeAt opts i with _ | _ | _
        · rcases val with _ | v
          · simp [stepTok, hne, hpl, hres, ha] at h
          · exact ⟨name, v, i, rfl, hres, ha⟩
        · rcases val with _ | v <;> simp [stepTok, hne, hpl, hres, ha] at h
        · rcases val with _ | v
          · rcases rest with _ | ⟨t, ts⟩ <;> simp [stepTok, hne, hpl, hres, ha] at h
          · simp [stepTok, hne, hpl, hres, ha] at h
    · rintro ⟨nm, v, i, hc, hres, ha⟩
      injection hc with hc
      rw [Prod.mk.injEq] at hc
      obtain ⟨rfl, rfl⟩ := hc
      exact ⟨name, by simp [stepTok, hne, hpl, hres, ha]⟩

theorem stepTok_argRequiredLong_iff (opts : List BasicOption) (flag : ParseFlag)
    (uthrow : Bool) (tok : String) (rest : List String) (hne : tok ≠ "--") :
    (∃ nm, (stepTok opts flag uthrow tok rest).2 =
        StepOut.halt (PError.argRequiredLong nm)) ↔
      (rest = [] ∧ ∃ nm i, parseLong tok = some (nm, Option.none) ∧
        resolveLong opts nm = Resolution.selected i ∧
        argTypeAt opts i = ArgType.required) := by
  rcases hpl : parseLong tok with _ | ⟨name, val⟩
  · constructor
    · rintro ⟨nm, h⟩
      rcases hps : parseShort tok with _ | chars
      · by_cases hf : flag = ParseFlag.posixly_correct <;>
          simp [stepTok, hne, hpl, hps, hf] at h
      · rcases hc2 : (processCluster opts uthrow chars rest).2 with e | b
        · simp [stepTok, hne, hpl, hps, hc2] at h
          rcases processCluster_halt_cases opts uthrow chars rest e hc2 with
            ⟨s, rfl⟩ | ⟨c, rfl⟩ | ⟨c, rfl⟩ <;> exact PError.noConfusion h
        · simp [stepTok, hne, hpl, hps, hc2] at h
    · rintro ⟨-, nm, i, hc, -⟩
      exact absurd hc (by simp)
  · constructor
    · rintro ⟨nm, h⟩
      rcases hres : resolveLong opts name with _ | _ | i
      · by_cases hu : uthrow <;> simp [stepTok, hne, hpl, hres, hu] at h
      · simp [stepTok, hne, hpl, hres] at h
      · rcases ha : argTypeAt opts i with _ | _ | _
        · rcases val with _ | v <;> simp [stepTok, hne, hpl, hres, ha] at h
        · rcases val with _ | v <;> simp [stepTok, hne, hpl, hres, ha] at h
        · rcases val with _ | v
          · rcases rest with _ | ⟨t, ts⟩
            · exact ⟨rfl, name, i, rfl, hres, ha⟩
            · simp [stepTok, hne, hpl, hres, ha] at h
          · simp [stepTok, hne, hpl, hres, ha] at h
    · rintro ⟨rfl, nm, i, hc, hres, ha⟩
      injection hc with hc
      rw [Prod.mk.injEq] at hc
      obtain ⟨rfl, rfl⟩ := hc
      exact ⟨name, by simp [stepTok, hne, hpl, hres, ha]⟩

theorem stepTok_argRequiredShort_iff (opts : List BasicOption) (flag : ParseFlag)
    (uthrow : Bool) (tok : String) (rest : List String) (hne : tok ≠ "--") :
    (∃ c, (stepTok opts flag uthrow tok rest).2 =
        StepOut.halt (PError.argRequiredShort c)) ↔
      (rest = [] ∧ parseLong tok = Option.none ∧ ∃ chars pre c i,
        parseShort tok = some chars ∧ chars = pre ++ [c] ∧
        (∀ x ∈ pre, shortTransparent opts uthrow x = true) ∧
        resolveShort opts c = Resolution.selected i ∧
        argTypeAt opts i = ArgType.required) := by
  rcases hpl : parseLong tok with _ | ⟨name, val⟩
  · rcases hps : parseShort tok with _ | chars
    · constructor
      · rintro ⟨c, h⟩
        by_cases hf : flag = ParseFlag.posixly_correct <;>
          simp [stepTok, hne, hpl, hps, hf] at h
      · rintro ⟨-, -, chars, pre, c, i, hps', -⟩
        exact absurd hps' (by simp)
    · have hiff := processCluster_argRequired_iff opts uthrow chars rest
      constructor
      · rintro ⟨c, h⟩
        rcases hc2 : (processCluster opts uthrow chars rest).2 with e | b
        · simp [stepTok, hne, hpl, hps, hc2] at h
          rw [h] at hc2
          obtain ⟨hrest, pre, ch, i, hch, htr, hres, harg⟩ := hiff.1 ⟨c, hc2⟩
          exact ⟨hrest, rfl, chars, pre, ch, i, rfl, hch, htr, hres, harg⟩
        · simp [stepTok, hne, hpl, hps, hc2] at h
      · rintro ⟨hrest, -, chars', pre, c, i, hps', hch, htr, hres, harg⟩
        injection hps' with hcc
        subst hcc
        obtain ⟨c', hc'⟩ := hiff.2 ⟨hrest, pre, c, i, hch, htr, hres, harg⟩
        exact ⟨c', by simp [stepTok, hne, hpl, hps, hc']⟩
  · constructor
    · rintro ⟨nm, h⟩
      rcases hres : resolveLong opts name with _ | _ | i
      · by_cases hu : uthrow <;> simp [stepTok, hne, hpl, hres, hu] at h
      · simp [stepTok, hne, hpl, hres] at h
      · rcases ha : argTypeAt opts i with _ | _ | _
        · rcases val with _ | v <;> simp [stepTok, hne, hpl, hres, ha] at h
        · rcases val with _ | v <;> simp [stepTok, hne, hpl, hres, ha] at h
        · rcases val with _ | v
          · rcases rest with _ | ⟨t, ts⟩ <;> simp [stepTok, hne, hpl, hres, ha] at h
          · simp [stepTok, hne, hpl, hres, ha] at h
    · rintro ⟨-, hpl', -⟩
      exact absurd hpl' (by simp)

/-- C5: `run` raises `ArgumentNotAllowed` while processing a token exactly
when that token is a long option with an attached `=` value whose uniquely
selected option has arity none; it raises `ArgumentRequired` exactly when a
uniquely selected required-arity option — a long form without `=VALUE`, or
the final cluster character of a short form — has no following token left
to consume as its value. -/
theorem c5_argument_errors (opts : List BasicOption) (flag : ParseFlag) (uthrow : Bool)
    (tok : String) (rest : List String) (hne : tok ≠ "--") :
    ((∃ nm, (stepTok opts flag uthrow tok rest).2 =
        StepOut.halt (PError.argNotAllowed nm)) ↔
      (∃ nm v i, parseLong tok = some (nm, some v) ∧
        resolveLong opts nm = Resolution.selected i ∧
        argTypeAt opts i = ArgType.none)) ∧
    ((∃ nm, (stepTok opts flag uthrow tok rest).2 =
        StepOut.halt (PError.argRequiredLong nm)) ↔
      (rest = [] ∧ ∃ nm i, parseLong tok = some (nm, Option.none) ∧
        resolveLong opts nm = Resolution.selected i ∧
        argTypeAt opts i = ArgType.required)) ∧
    ((∃ c, (stepTok opts flag uthrow tok rest).2 =
        StepOut.halt (PError.argRequiredShort c)) ↔
      (rest = [] ∧ parseLong tok = Option.none ∧ ∃ chars pre c i,
        parseShort tok = some chars ∧ chars = pre ++ [c] ∧
        (∀ x ∈ pre, shortTransparent opts uthrow x = true) ∧
        resolveShort opts c = Resolution.selected i ∧
        argTypeAt opts i = ArgType.required)) :=
  ⟨stepTok_argNotAllowed_iff opts flag uthrow tok rest hne,
    stepTok_argRequiredLong_iff opts flag uthrow tok rest hne,
    stepTok_argRequiredShort_iff opts flag uthrow tok rest hne⟩

/-- C5 witness: `--flag=x` against no-argument `--flag` raises
`ArgumentNotAllowed`; a final `--count` against required-arity `--count`
raises `ArgumentRequired`; a final `-b` against required-arity `-b` raises
`ArgumentRequired`. -/
theorem c5_argument_errors_witness :
    (∃ nm, (stepTok [demoFlag] ParseFlag.none true "--flag=x" []).2 =
        StepOut.halt (PError.argNotAllowed nm)) ∧
    (∃ nm, (stepTok [demoCount] ParseFlag.none true "--count" []).2 =
        StepOut.halt (PError.argRequiredLong nm)) ∧
    (∃ c, (stepTok [demoB] ParseFlag.none true "-b" []).2 =
        StepOut.halt (PError.argRequiredShort c)) :=
  ⟨(c5_argument_errors [demoFlag] ParseFlag.none true "--flag=x" [] (by decide)).1.mpr
      ⟨"flag", "x", 0, by decide, by decide, by decide⟩,
    (c5_argument_errors [demoCount] ParseFlag.none true "--count" [] (by decide)).2.1.mpr
      ⟨rfl, "count", 0, by decide, by decide, by decide⟩,
    (c5_argument_errors [demoB] ParseFlag.none true "-b" [] (by decide)).2.2.mpr
      ⟨rfl, by decide, ['b'], [], 'b', 0, by decide, rfl, by simp, by decide, by decide⟩⟩

/-! Help rendering (claim C9). -/

theorem foldl_max_len (f : BasicOption → String) (opts : List BasicOption) (a : Nat) :
    opts.foldl (fun m o => max m (f o).length) a = max a (maxLen f opts) := by
  induction opts generalizing a with
  | nil => simp [maxLen]
  | cons o os ih =>
    rw [List.foldl_cons, ih]
    simp only [maxLen, List.map_cons, List.foldr_cons]
    omega

theorem helpCol0_eq (opts : List BasicOption) :
    helpCol0 opts = 1 + maxLen shortField opts := by
  rw [helpCol0, foldl_max_len]
  omega

theorem helpCol1_eq (opts : List BasicOption) :
    helpCol1 opts = 1 + maxLen longField opts := by
  rw [helpCol1, foldl_max_len]
  omega

theorem renderBlock_eq_joinSep (col0 col1 : Nat) (o : BasicOption) :
    renderBlock col0 col1 o = joinSep "\n" (blockLines col0 col1 o) := by
  rcases hgl : getlines o.description with _ | ⟨ln, lns⟩
  · simp [renderBlock, blockLines, hgl, joinSep, concatAll]
  · simp only [renderBlock, blockLines, hgl, joinSep, List.map_map]
    rw [show ((fun t => "\n" ++ t) ∘ fun l => spaces (col0 + col1) ++ l) =
        (fun l => "\n" ++ spaces (col0 + col1) ++ l) from by
      funext l
      simp [Function.comp, String.append_assoc]]
    simp [String.append_assoc]

/-- C9 counterexample: with the two options `-h, --help` (description "show
help") and `-o FILE, --output=FILE` (description "output file"), the blocks
of `get_help` are separated by a single newline — the rendered text has
exactly one line per option and no blank line between the two blocks,
whereas the claim asserts a blank line separates each option's block from
the next. -/
theorem c9_counterexample :
    get_help [demoHelp, demoOutput] "OPTIONS" =
        "OPTIONS\n-h      --help        show help\n-o FILE --output=FILE output file" ∧
      getlines (get_help [demoHelp, demoOutput] "OPTIONS") =
        ["OPTIONS", "-h      --help        show help",
          "-o FILE --output=FILE output file"] :=
  ⟨by decide, by decide⟩

/-- C9 amended: `get_help` computes `col0` as 1 plus the maximum width of
the short-option display fields and `col1` as 1 plus the maximum width of
the long-option display fields, pads each option's short field to `col0`
and its long field to `col1`, indents each continuation line of a
multi-line description by `col0 + col1` spaces, and separates consecutive
option blocks by a single newline (each block starts on the line after the
previous block's last line; no blank line is inserted). -/
theorem c9_help_layout (opts : List BasicOption) (header : String) :
    get_help opts header =
      header ++ "\n" ++
        joinSep "\n" (opts.map (fun o =>
          joinSep "\n"
            (blockLines (1 + maxLen shortField opts) (1 + maxLen longField opts) o))) := by
  rw [get_help, helpCol0_eq, helpCol1_eq,
    show renderBlock (1 + maxLen shortField opts) (1 + maxLen longField opts) =
        (fun o => joinSep "\n"
          (blockLines (1 + maxLen shortField opts) (1 + maxLen longField opts) o)) from
      funext fun o => renderBlock_eq_joinSep _ _ o]

/-! Shape of `--`-prefixed tokens (claim C10). -/

theorem stepTok_long_no_nonOpt (opts : List BasicOption) (flag : ParseFlag)
    (uthrow : Bool) (tok : String) (rest : List String) (name : String)
    (val : Option String) (hne : tok ≠ "--") (hpl : parseLong tok = some (name, val)) :
    ∀ e ∈ (stepTok opts flag uthrow tok rest).1, ∀ t, e ≠ Event.nonOpt t := by
  intro e he t
  rcases hres : resolveLong opts name with _ | _ | i
  · by_cases hu : uthrow
    · simp [stepTok, hne, hpl, hres, hu] at he
    · simp [stepTok, hne, hpl, hres, hu] at he
      subst he
      simp
  · simp [stepTok, hne, hpl, hres] at he
  · rcases ha : argTypeAt opts i with _ | _ | _ <;> rcases val with _ | v
    · simp [stepTok, hne, hpl, hres, ha] at he
      subst he
      simp
    · simp [stepTok, hne, hpl, hres, ha] at he
    · simp [stepTok, hne, hpl, hres, ha] at he
      subst he
      simp
    · simp [stepTok, hne, hpl, hres, ha] at he
      subst he
      simp
    · rcases rest with _ | ⟨t2, ts⟩
      · simp [stepTok, hne, hpl, hres, ha] at he
      · simp [stepTok, hne, hpl, hres, ha] at he
        subst he
        simp
    · simp [stepTok, hne, hpl, hres, ha] at he
      subst he
      simp

/-- C10 counterexample: the token `--a=<newline>` begins with two hyphens
and is not exactly `--`, yet under the ECMAScript regex grammar of
`std::regex` the atom `.` does not match a line terminator, so the token
matches neither option regex and — with a long option `--a` declared and in
standard mode — is handed to the non-option handler, where the claim says
such a token is always a long option and never a non-option. -/
theorem c10_counterexample :
    run [demoLongA] ParseFlag.none true ["--a=\n"] =
      ([Event.nonOpt "--a=\n"], Option.none) := by decide

/-- C10 amended: every token that begins with two hyphens, is not exactly
`--`, and — when it contains `=` — has no line-terminator character after
the first `=`, is classified as a long option: the extracted name is the
maximal `=`-free substring following the two hyphens (it may be empty or
contain further hyphens), and processing of such a token never invokes the
non-option handler, in either mode.  A `--`-prefixed token with a line
terminator after its first `=` instead falls through to non-option
handling. -/
theorem c10_long_shape (opts : List BasicOption) (flag : ParseFlag) (uthrow : Bool)
    (rest : List String) (tok : String) (cs : List Char)
    (htok : tok.data = '-' :: '-' :: cs) (hcs : cs ≠ [])
    (hval : ((cs.dropWhile (fun c => c != '=')).drop 1).all
      (fun c => !isLineTerm c) = true) :
    (∃ v, parseLong tok = some (String.mk (cs.takeWhile (fun c => c != '=')), v)) ∧
    ∀ e ∈ (stepTok opts flag uthrow tok rest).1, ∀ t, e ≠ Event.nonOpt t := by
  have hne : tok ≠ "--" := by
    intro h
    subst h
    have h2 : ('-' :: '-' :: ([] : List Char)) = '-' :: '-' :: cs := htok
    simp only [List.cons.injEq, true_and] at h2
    exact hcs h2.symm
  have hpl : ∃ v, parseLong tok =
      some (String.mk (cs.takeWhile (fun c => c != '=')), v) := by
    rcases hdw : cs.dropWhile (fun c => c != '=') with _ | ⟨e, v⟩
    · exact ⟨Option.none, by simp [parseLong, htok, hdw]⟩
    · rw [hdw] at hval
      simp only [List.drop_succ_cons, List.drop_zero] at hval
      exact ⟨some (String.mk v), by simp [parseLong, htok, hdw, hval]⟩
  obtain ⟨v, hv⟩ := hpl
  exact ⟨⟨v, hv⟩, stepTok_long_no_nonOpt opts flag uthrow tok rest _ v hne hv⟩

/-- C10 witness: the amended rule at the token `--=v`, whose extracted name
is the empty string. -/
theorem c10_long_shape_witness :
    (∃ v, parseLong "--=v" = some ("", v)) ∧
    ∀ e ∈ (stepTok [demoLongA] ParseFlag.none true "--=v" []).1,
      ∀ t, e ≠ Event.nonOpt t := by
  have h := c10_long_shape [demoLongA] ParseFlag.none true [] "--=v" ['=', 'v']
    (by decide) (by decide) (by decide)
  refine ⟨?_, h.2⟩
  obtain ⟨v, hv⟩ := h.1
  have hnm : String.mk (List.takeWhile (fun c => c != '=') ['=', 'v']) = "" := by decide
  exact ⟨v, by rw [hv, hnm]⟩

end Getoptmm
